import Mathlib

/-!
Shallow embedding of `fast-rcnn/lib/gt_data_layer/roidb.py` (SubCNN).

The file models the three functions of the source:
  * `prepare_roidb`            (assignment enrichment plus sanity assertions),
  * `add_bbox_regression_targets` (two-sweep corpus normalization),
  * `_compute_targets`         (per-image regression target derivation),
together with the numpy row-wise `max` / `argmax` primitives they rely on.

Overlap scores and box coordinates are exact rationals; regression deltas
and normalization statistics live in `ℝ` because the source applies
`np.log` and `np.sqrt` to them.  Configuration constants (`cfg.EPS`,
`cfg.TRAIN.BBOX_THRESH`, `cfg.TRAIN.SCALES`) come from a module that is
not part of the sources; they are modelled as explicit parameters.
-/

namespace SubCNN

/-- `np.max` over a row (numpy raises on an empty array; the `[]` case is a
junk value, and theorems assume nonempty rows). -/
def npMax : List ℚ → ℚ
  | [] => 0
  | [x] => x
  | x :: y :: t => if x < npMax (y :: t) then npMax (y :: t) else x

/-- `np.argmax` over a row: the index of the first occurrence of the
maximum, which is numpy's documented tie-breaking rule. -/
def npArgmax : List ℚ → ℕ
  | [] => 0
  | [_] => 0
  | x :: y :: t => if x < npMax (y :: t) then npArgmax (y :: t) + 1 else 0

theorem npMax_cons (x y : ℚ) (t : List ℚ) :
    npMax (x :: y :: t) = max x (npMax (y :: t)) := by
  show (if x < npMax (y :: t) then npMax (y :: t) else x) = _
  rcases lt_or_ge x (npMax (y :: t)) with h | h
  · rw [if_pos h, max_eq_right (le_of_lt h)]
  · rw [if_neg (not_lt_of_ge h), max_eq_left h]

theorem npArgmax_cons (x y : ℚ) (t : List ℚ) :
    npArgmax (x :: y :: t) =
      if x < npMax (y :: t) then npArgmax (y :: t) + 1 else 0 := rfl

theorem npMax_mem : ∀ {l : List ℚ}, l ≠ [] → npMax l ∈ l
  | [], h => absurd rfl h
  | [x], _ => by simp [npMax]
  | x :: y :: t, _ => by
      rw [npMax_cons]
      rcases max_cases x (npMax (y :: t)) with ⟨h1, _⟩ | ⟨h1, _⟩
      · rw [h1]; exact List.mem_cons_self _ _
      · rw [h1]
        exact List.mem_cons_of_mem _ (npMax_mem (by simp))

theorem le_npMax : ∀ {l : List ℚ} {v : ℚ}, v ∈ l → v ≤ npMax l
  | [], _, hv => by cases hv
  | [x], v, hv => by
      rcases List.mem_singleton.mp hv with rfl
      exact le_of_eq rfl
  | x :: y :: t, v, hv => by
      rw [npMax_cons]
      rcases List.mem_cons.mp hv with h | h
      · subst h; exact le_max_left _ _
      · exact le_trans (le_npMax h) (le_max_right _ _)

theorem npArgmax_lt_length : ∀ {l : List ℚ}, l ≠ [] → npArgmax l < l.length
  | [], h => absurd rfl h
  | [_], _ => by simp [npArgmax]
  | x :: y :: t, _ => by
      rw [npArgmax_cons]
      by_cases h : x < npMax (y :: t)
      · rw [if_pos h]
        exact Nat.succ_lt_succ (npArgmax_lt_length (by simp))
      · rw [if_neg h]
        exact Nat.succ_pos _

theorem getD_npArgmax : ∀ {l : List ℚ}, l ≠ [] → l.getD (npArgmax l) 0 = npMax l
  | [], h => absurd rfl h
  | [x], _ => by simp [npArgmax, npMax]
  | x :: y :: t, _ => by
      rw [npArgmax_cons, npMax_cons]
      by_cases h : x < npMax (y :: t)
      · rw [if_pos h, max_eq_right (le_of_lt h)]
        exact getD_npArgmax (by simp)
      · rw [if_neg h, max_eq_left (le_of_not_lt h)]
        rfl

theorem getD_lt_of_lt_npArgmax :
    ∀ {l : List ℚ} {k : ℕ}, k < npArgmax l → l.getD k 0 < npMax l
  | [], k, h => by simp [npArgmax] at h
  | [x], k, h => by simp [npArgmax] at h
  | x :: y :: t, k, h => by
      rw [npArgmax_cons] at h
      by_cases hx : x < npMax (y :: t)
      · rw [if_pos hx] at h
        rw [npMax_cons, max_eq_right (le_of_lt hx)]
        cases k with
        | zero => exact hx
        | succ k => exact getD_lt_of_lt_npArgmax (Nat.lt_of_succ_lt_succ h)
      · rw [if_neg hx] at h
        exact absurd h (Nat.not_lt_zero _)

theorem getD_map_range {α : Type} (f : ℕ → α) {n j : ℕ} (hj : j < n) (d : α) :
    ((List.range n).map f).getD j d = f j := by
  rw [List.getD_eq_getElem _ _ (by simpa using hj)]
  simp [hj]

theorem getD_map_of_lt {α β : Type} (f : α → β) {l : List α} {j : ℕ}
    (hj : j < l.length) (d : α) (d' : β) :
    (l.map f).getD j d' = f (l.getD j d) := by
  rw [List.getD_eq_getElem _ _ (by simpa using hj), List.getD_eq_getElem _ _ hj]
  simp

/-- A box given as `(x1, y1, x2, y2)` corner coordinates. -/
structure Box where
  x1 : ℚ
  y1 : ℚ
  x2 : ℚ
  y2 : ℚ
deriving DecidableEq

/-- A dense matrix (the `toarray()` view of a sparse overlap matrix):
the column count is carried explicitly because numpy keeps the shape
even when there are zero rows or zero columns. -/
structure Mat where
  ncols : ℕ
  rows : List (List ℚ)
deriving DecidableEq

/-- One image record of the roidb.  The three `Option` fields are the
derived quantities written by `prepare_roidb`; `none` models a dictionary
in which the key is absent. -/
structure Record where
  gt_overlaps : Mat
  gt_subindexes : List (List ℤ)
  boxes_all : List Box
  gt_overlaps_grid : Mat
  gt_classes : List ℕ
  max_overlaps : Option (List ℚ)
  max_classes : Option (List ℕ)
  max_subclasses : Option (List ℤ)
deriving DecidableEq

/-- Modelled from the spec: the global configuration module
(`fast_rcnn.config`, providing `cfg.EPS`, `cfg.TRAIN.BBOX_THRESH` and
`cfg.TRAIN.SCALES`) is not among the sources.  The spec describes them as
"a small positive epsilon", "a fixed configured overlap threshold
(e.g. 0.5)" and "the number/list of scale multipliers"; they are modelled
as explicit parameters, `nScales` standing for `len(cfg.TRAIN.SCALES)`. -/
structure Cfg where
  EPS : ℚ
  BBOX_THRESH : ℚ
  nScales : ℕ
deriving DecidableEq

/-- `max_overlaps = gt_overlaps.max(axis=1)`. -/
def maxOverlapsOf (e : Record) : List ℚ := e.gt_overlaps.rows.map npMax

/-- `max_classes = gt_overlaps.argmax(axis=1)`. -/
def maxClassesOf (e : Record) : List ℕ := e.gt_overlaps.rows.map npArgmax

/-- `for j in range(len(max_classes)): max_subclasses[j] = gt_subindexes[j, max_classes[j]]`. -/
def maxSubclassesOf (e : Record) : List ℤ :=
  (List.range e.gt_overlaps.rows.length).map fun j =>
    (e.gt_subindexes.getD j []).getD (npArgmax (e.gt_overlaps.rows.getD j [])) 0

/-- The background/foreground agreement checked by the four assertions of
`prepare_roidb`, for one region. -/
def regionOK (ov : ℚ) (c : ℕ) (s : ℤ) : Prop :=
  (ov = 0 → c = 0 ∧ s = 0) ∧ (0 < ov → c ≠ 0 ∧ s ≠ 0)

instance (ov : ℚ) (c : ℕ) (s : ℤ) : Decidable (regionOK ov c s) := by
  unfold regionOK; infer_instance

/-- The conjunction of the four `assert` statements of `prepare_roidb`
for one image. -/
def recordChecks (e : Record) : Bool :=
  (List.range e.gt_overlaps.rows.length).all fun j =>
    decide (regionOK ((maxOverlapsOf e).getD j 0) ((maxClassesOf e).getD j 0)
      ((maxSubclassesOf e).getD j 0))

/-- The in-place writes of `prepare_roidb` for one image. -/
def enrichRecord (e : Record) : Record :=
  { e with max_overlaps := some (maxOverlapsOf e)
         , max_classes := some (maxClassesOf e)
         , max_subclasses := some (maxSubclassesOf e) }

/-- `prepare_roidb`: enrich every record, aborting (`none`) if any image
fails its sanity assertions.  (Setting `roidb[i]['image']` is an external
path lookup and is not modelled.) -/
def prepare_roidb (roidb : List Record) : Option (List Record) :=
  if roidb.all recordChecks then some (roidb.map enrichRecord) else none

/-- An empty record, used only as a `getD` fallback. -/
def emptyRecord : Record :=
  { gt_overlaps := ⟨0, []⟩, gt_subindexes := [], boxes_all := []
  , gt_overlaps_grid := ⟨0, []⟩, gt_classes := [], max_overlaps := none
  , max_classes := none, max_subclasses := none }

/-- C1: for every image record processed by the Assignment Enricher
(`prepare_roidb`) and every region (row) of its densified overlap matrix,
the written `max_overlap` is the maximum of the row, the written
`max_classes` entry is the lowest column index attaining that maximum
(so ties go to the lowest column index), and the written `max_subclasses`
entry is `gt_subindexes[region, best_class]`. -/
theorem c1_assignment_rowwise (roidb out : List Record)
    (hp : prepare_roidb roidb = some out) (i : ℕ) (hi : i < roidb.length)
    (j : ℕ) (hj : j < (roidb.getD i emptyRecord).gt_overlaps.rows.length)
    (hrow : (roidb.getD i emptyRecord).gt_overlaps.rows.getD j [] ≠ []) :
    let e := roidb.getD i emptyRecord
    let row := e.gt_overlaps.rows.getD j []
    let ov := (maxOverlapsOf e).getD j 0
    let c := (maxClassesOf e).getD j 0
    let s := (maxSubclassesOf e).getD j 0
    out.getD i emptyRecord = enrichRecord e ∧
      ov ∈ row ∧ (∀ v ∈ row, v ≤ ov) ∧ row.getD c 0 = ov ∧
      (∀ k < c, row.getD k 0 < ov) ∧
      s = (e.gt_subindexes.getD j []).getD c 0 := by
  intro e row ov c s
  have hout : out = roidb.map enrichRecord := by
    unfold prepare_roidb at hp
    split at hp
    · exact (Option.some.injEq _ _ ▸ hp).symm
    · exact absurd hp (by simp)
  have hov : ov = npMax row := getD_map_of_lt npMax hj [] 0
  have hc : c = npArgmax row := getD_map_of_lt npArgmax hj [] 0
  refine ⟨?_, ?_, ?_, ?_, ?_, ?_⟩
  · rw [hout]; exact getD_map_of_lt enrichRecord hi emptyRecord emptyRecord
  · rw [hov]; exact npMax_mem hrow
  · intro v hv; rw [hov]; exact le_npMax hv
  · rw [hov, hc]; exact getD_npArgmax hrow
  · intro k hk
    rw [hov]
    exact getD_lt_of_lt_npArgmax (hc ▸ hk)
  · show s = _
    rw [hc]
    exact getD_map_range _ hj 0

/-- A concrete record with two regions and two ground-truth columns,
including a tie in the second row, used by the C1 witness. -/
def tieRecord : Record :=
  { gt_overlaps := ⟨3, [[0, 2, 0], [0, 2, 2]]⟩
  , gt_subindexes := [[0, 3, 0], [0, 7, 9]]
  , boxes_all := [], gt_overlaps_grid := ⟨0, []⟩
  , gt_classes := [], max_overlaps := none
  , max_classes := none, max_subclasses := none }

/-- Witness for C1 at a concrete two-region, two-class record. -/
theorem c1_assignment_rowwise_witness :
    prepare_roidb [tieRecord] = some ([tieRecord].map enrichRecord) ∧
    0 < [tieRecord].length ∧
    1 < ([tieRecord].getD 0 emptyRecord).gt_overlaps.rows.length ∧
    ([tieRecord].getD 0 emptyRecord).gt_overlaps.rows.getD 1 [] ≠ [] ∧
    (∀ k < (maxClassesOf ([tieRecord].getD 0 emptyRecord)).getD 1 0,
      (([tieRecord].getD 0 emptyRecord).gt_overlaps.rows.getD 1 []).getD k 0 <
        (maxOverlapsOf ([tieRecord].getD 0 emptyRecord)).getD 1 0) := by
  refine ⟨by decide, by decide, by decide, by decide, ?_⟩
  exact (c1_assignment_rowwise [tieRecord] ([tieRecord].map enrichRecord)
    (by decide) 0 (by decide) 1 (by decide) (by decide)).2.2.2.2.1

/-- C2: `prepare_roidb` succeeds exactly when every region of every image
satisfies the background-agreement invariant (`max_overlap == 0` implies
background class and subclass; `max_overlap > 0` implies foreground class
and subclass), aborting otherwise; and on success the fields stored in
every returned record satisfy the invariant. -/
theorem c2_prepare_roidb_invariants (roidb : List Record) :
    ((prepare_roidb roidb).isSome ↔
      ∀ e ∈ roidb, ∀ j < e.gt_overlaps.rows.length,
        regionOK ((maxOverlapsOf e).getD j 0) ((maxClassesOf e).getD j 0)
          ((maxSubclassesOf e).getD j 0)) ∧
    (∀ out, prepare_roidb roidb = some out →
      ∀ e' ∈ out, ∀ j < e'.gt_overlaps.rows.length,
        regionOK ((e'.max_overlaps.getD []).getD j 0)
          ((e'.max_classes.getD []).getD j 0)
          ((e'.max_subclasses.getD []).getD j 0)) := by
  have hall : (roidb.all recordChecks = true) ↔
      ∀ e ∈ roidb, ∀ j < e.gt_overlaps.rows.length,
        regionOK ((maxOverlapsOf e).getD j 0) ((maxClassesOf e).getD j 0)
          ((maxSubclassesOf e).getD j 0) := by
    rw [List.all_eq_true]
    refine forall_congr' fun e => ?_
    refine imp_congr_right fun _ => ?_
    unfold recordChecks
    rw [List.all_eq_true]
    constructor
    · intro h j hj
      exact of_decide_eq_true (h j (List.mem_range.mpr hj))
    · intro h j hj
      exact decide_eq_true (h j (List.mem_range.mp hj))
  constructor
  · unfold prepare_roidb
    by_cases h : roidb.all recordChecks = true
    · rw [if_pos h]
      simpa using hall.mp h
    · rw [if_neg h]
      simp only [Option.isSome_none, Bool.false_eq_true, false_iff]
      intro hcon
      exact h (hall.mpr hcon)
  · intro out hp e' he' j hj
    have hout : out = roidb.map enrichRecord ∧ roidb.all recordChecks = true := by
      unfold prepare_roidb at hp
      split at hp
      · exact ⟨(Option.some.injEq _ _ ▸ hp).symm, by assumption⟩
      · exact absurd hp (by simp)
    rcases hout with ⟨hout, hchecks⟩
    rcases List.mem_map.mp (hout ▸ he') with ⟨e, he, rfl⟩
    have hj' : j < e.gt_overlaps.rows.length := hj
    have := (hall.mp hchecks) e he j hj'
    simpa [enrichRecord] using this

/-- Witness for C2: a record violating the invariant makes
`prepare_roidb` abort. -/
theorem c2_prepare_roidb_invariants_witness :
    ¬ (prepare_roidb [{ gt_overlaps := ⟨2, [[2, 0]]⟩
                      , gt_subindexes := [[5, 0]]
                      , boxes_all := [], gt_overlaps_grid := ⟨0, []⟩
                      , gt_classes := [], max_overlaps := none
                      , max_classes := none, max_subclasses := none }]).isSome := by
  intro h
  have := (c2_prepare_roidb_invariants _).1.mp h
  exact absurd this (by decide)

/-- A 4-vector of regression deltas `(dx, dy, dw, dh)`; real-valued because
the source applies `np.log` and `np.sqrt` to these quantities. -/
@[ext]
structure D4 where
  x : ℝ
  y : ℝ
  w : ℝ
  h : ℝ

noncomputable instance : Zero D4 := ⟨⟨0, 0, 0, 0⟩⟩

noncomputable instance : Add D4 := ⟨fun a b => ⟨a.x + b.x, a.y + b.y, a.w + b.w, a.h + b.h⟩⟩

noncomputable instance : Sub D4 := ⟨fun a b => ⟨a.x - b.x, a.y - b.y, a.w - b.w, a.h - b.h⟩⟩

noncomputable instance : Mul D4 := ⟨fun a b => ⟨a.x * b.x, a.y * b.y, a.w * b.w, a.h * b.h⟩⟩

noncomputable instance : Div D4 := ⟨fun a b => ⟨a.x / b.x, a.y / b.y, a.w / b.w, a.h / b.h⟩⟩

theorem D4.zero_def : (0 : D4) = ⟨0, 0, 0, 0⟩ := rfl

theorem D4.add_def (a b : D4) : a + b = ⟨a.x + b.x, a.y + b.y, a.w + b.w, a.h + b.h⟩ := rfl

theorem D4.sub_def (a b : D4) : a - b = ⟨a.x - b.x, a.y - b.y, a.w - b.w, a.h - b.h⟩ := rfl

theorem D4.mul_def (a b : D4) : a * b = ⟨a.x * b.x, a.y * b.y, a.w * b.w, a.h * b.h⟩ := rfl

theorem D4.div_def (a b : D4) : a / b = ⟨a.x / b.x, a.y / b.y, a.w / b.w, a.h / b.h⟩ := rfl

/-- One row of a `bbox_targets` matrix: the class label in column 0 and
the four regression deltas in columns 1-4. -/
structure TRow where
  cls : ℕ
  d : D4

/-- A background target row: class label `0`, zero deltas. -/
noncomputable def zeroTRow : TRow := ⟨0, ⟨0, 0, 0, 0⟩⟩

/-- `gt_classes_all = np.tile(gt_classes, len(cfg.TRAIN.SCALES))`. -/
def tileClasses (l : List ℕ) (n : ℕ) : List ℕ := (List.replicate n l).flatten

/-- The `getD` fallback box. -/
def zeroBox : Box := ⟨0, 0, 0, 0⟩

/-- The body of `_compute_targets` for one grid box: threshold gating,
best-candidate selection and the delta parameterization
(`dx = (gt_ctr_x - ex_ctr_x)/ex_width`, ..., `dw = log(gt_w/ex_w)`, ...). -/
noncomputable def computeRow (cfg : Cfg) (boxes_all : List Box)
    (gt_classes_all : List ℕ) (ex : Box) (row : List ℚ) : TRow :=
  if cfg.BBOX_THRESH ≤ npMax row then
    let g := npArgmax row
    let gt := boxes_all.getD g zeroBox
    let ex_w : ℚ := ex.x2 - ex.x1 + cfg.EPS
    let ex_h : ℚ := ex.y2 - ex.y1 + cfg.EPS
    let ex_cx : ℚ := ex.x1 + (1/2) * ex_w
    let ex_cy : ℚ := ex.y1 + (1/2) * ex_h
    let gt_w : ℚ := gt.x2 - gt.x1 + cfg.EPS
    let gt_h : ℚ := gt.y2 - gt.y1 + cfg.EPS
    let gt_cx : ℚ := gt.x1 + (1/2) * gt_w
    let gt_cy : ℚ := gt.y1 + (1/2) * gt_h
    { cls := gt_classes_all.getD g 0
    , d := { x := (((gt_cx - ex_cx) / ex_w : ℚ) : ℝ)
           , y := (((gt_cy - ex_cy) / ex_h : ℚ) : ℝ)
           , w := Real.log ((gt_w : ℚ) / (ex_w : ℚ) : ℚ)
           , h := Real.log ((gt_h : ℚ) / (ex_h : ℚ) : ℚ) } }
  else zeroTRow

/-- `_compute_targets`: an all-zero grid-sized matrix when there are no
ground-truth columns, otherwise one row per grid box via `computeRow`.
The output always has one row per grid box, as in the source
(`np.zeros((boxes_grid.shape[0], 5))`). -/
noncomputable def computeTargets (cfg : Cfg) (boxes_grid boxes_all : List Box)
    (M : Mat) (gt_classes_all : List ℕ) : List TRow :=
  if M.ncols = 0 then boxes_grid.map fun _ => zeroTRow
  else (List.range boxes_grid.length).map fun i =>
    if i < M.rows.length then
      computeRow cfg boxes_all gt_classes_all (boxes_grid.getD i zeroBox)
        (M.rows.getD i [])
    else zeroTRow

/-- The per-image call made by `add_bbox_regression_targets`:
`_compute_targets(boxes_grid, boxes_all, gt_overlaps_grid.toarray(),
np.tile(gt_classes, len(cfg.TRAIN.SCALES)))`. -/
noncomputable def rawTargetsOf (cfg : Cfg) (boxes_grid : List Box) (r : Record) :
    List TRow :=
  computeTargets cfg boxes_grid r.boxes_all r.gt_overlaps_grid
    (tileClasses r.gt_classes cfg.nScales)

/-- C5: when the grid-vs-candidate overlap matrix has zero columns,
`_compute_targets` returns (without raising — the function is total) an
all-zero matrix with one row per grid box: class label 0 and zero deltas
everywhere. -/
theorem c5_empty_ground_truth (cfg : Cfg) (boxes_grid boxes_all : List Box)
    (M : Mat) (gt_classes_all : List ℕ) (h : M.ncols = 0) :
    computeTargets cfg boxes_grid boxes_all M gt_classes_all =
      List.replicate boxes_grid.length zeroTRow ∧
    (computeTargets cfg boxes_grid boxes_all M gt_classes_all).length =
      boxes_grid.length := by
  unfold computeTargets
  rw [if_pos h]
  refine ⟨?_, by simp⟩
  simp

/-- Witness for C5. -/
theorem c5_empty_ground_truth_witness :
    (⟨0, []⟩ : Mat).ncols = 0 ∧
    computeTargets ⟨1, 1, 1⟩ [zeroBox, zeroBox] [] ⟨0, []⟩ [] =
      List.replicate 2 zeroTRow := by
  refine ⟨rfl, ?_⟩
  exact (c5_empty_ground_truth ⟨1, 1, 1⟩ [zeroBox, zeroBox] [] ⟨0, []⟩ [] rfl).1

theorem getD_mem_of_lt {α : Type} {l : List α} {j : ℕ} (hj : j < l.length)
    (d : α) : l.getD j d ∈ l := by
  rw [List.getD_eq_getElem _ _ hj]
  exact List.getElem_mem _

/-- C6: in `_compute_targets` (with at least one ground-truth column and
foreground ground-truth classes), a grid box receives a non-background
target row exactly when its maximal overlap is `>= BBOX_THRESH`, and every
grid box strictly below the threshold keeps class 0 and zero deltas. -/
theorem c6_threshold_gating (cfg : Cfg) (boxes_grid boxes_all : List Box)
    (M : Mat) (gt_classes_all : List ℕ)
    (hnc : M.ncols ≠ 0)
    (hlen : M.rows.length = boxes_grid.length)
    (hrows : ∀ r ∈ M.rows, r.length = M.ncols)
    (hclen : M.ncols ≤ gt_classes_all.length)
    (hfg : ∀ c ∈ gt_classes_all, c ≠ 0)
    (j : ℕ) (hj : j < boxes_grid.length) :
    let out := computeTargets cfg boxes_grid boxes_all M gt_classes_all
    let row := M.rows.getD j []
    (cfg.BBOX_THRESH ≤ npMax row ↔ (out.getD j zeroTRow).cls ≠ 0) ∧
    (npMax row < cfg.BBOX_THRESH → out.getD j zeroTRow = zeroTRow) := by
  intro out row
  have hjr : j < M.rows.length := hlen ▸ hj
  have hrow_len : row.length = M.ncols := hrows row (getD_mem_of_lt hjr [])
  have hrow_ne : row ≠ [] := by
    intro hcon
    rw [hcon] at hrow_len
    exact hnc hrow_len.symm
  have hout : out.getD j zeroTRow =
      computeRow cfg boxes_all gt_classes_all (boxes_grid.getD j zeroBox) row := by
    show (computeTargets cfg boxes_grid boxes_all M gt_classes_all).getD j zeroTRow = _
    unfold computeTargets
    rw [if_neg hnc, getD_map_range _ hj, if_pos hjr]
  by_cases ht : cfg.BBOX_THRESH ≤ npMax row
  · have hcls : (out.getD j zeroTRow).cls = gt_classes_all.getD (npArgmax row) 0 := by
      rw [hout]
      unfold computeRow
      rw [if_pos ht]
    have hglt : npArgmax row < gt_classes_all.length :=
      lt_of_lt_of_le (hrow_len ▸ npArgmax_lt_length hrow_ne) hclen
    have hne : gt_classes_all.getD (npArgmax row) 0 ≠ 0 :=
      hfg _ (getD_mem_of_lt hglt 0)
    constructor
    · exact ⟨fun _ => hcls ▸ hne, fun _ => ht⟩
    · intro hlt
      exact absurd ht (not_le_of_lt hlt)
  · have hzero : out.getD j zeroTRow = zeroTRow := by
      rw [hout]
      unfold computeRow
      rw [if_neg ht]
    constructor
    · constructor
      · intro h; exact absurd h ht
      · intro h
        rw [hzero] at h
        exact absurd rfl h
    · intro _; exact hzero

/-- Witness for C6: a one-box grid with overlap 1 against a threshold of 1
(foreground), checked through the theorem. -/
theorem c6_threshold_gating_witness :
    ((⟨1, [[1]]⟩ : Mat).ncols ≠ 0 ∧
      (⟨1, [[1]]⟩ : Mat).rows.length = [zeroBox].length ∧
      (∀ r ∈ (⟨1, [[1]]⟩ : Mat).rows, r.length = (⟨1, [[1]]⟩ : Mat).ncols) ∧
      (⟨1, [[1]]⟩ : Mat).ncols ≤ ([2] : List ℕ).length ∧
      (∀ c ∈ ([2] : List ℕ), c ≠ 0) ∧ 0 < [zeroBox].length) ∧
    ((⟨1, 1, 1⟩ : Cfg).BBOX_THRESH ≤ npMax ((⟨1, [[1]]⟩ : Mat).rows.getD 0 []) ↔
      ((computeTargets ⟨1, 1, 1⟩ [zeroBox] [zeroBox] ⟨1, [[1]]⟩ [2]).getD 0
        zeroTRow).cls ≠ 0) := by
  refine ⟨⟨by decide, by decide, by decide, by decide, by decide, by decide⟩, ?_⟩
  exact (c6_threshold_gating ⟨1, 1, 1⟩ [zeroBox] [zeroBox] ⟨1, [[1]]⟩ [2]
    (by decide) (by decide) (by decide) (by decide) (by decide) 0 (by decide)).1

/-- C7: for a grid box at index `j` whose maximal overlap reaches the
threshold, the written target row consists of the tiled ground-truth class
of the best-matching candidate and the four deltas of the standard
parameterization: widths/heights as coordinate difference plus epsilon,
centers as corner plus half the width, `dx`/`dy` as center offsets over the
grid box's width/height, and `dw`/`dh` as the log of the width/height
ratios. -/
theorem c7_delta_parameterization (cfg : Cfg) (boxes_grid : List Box)
    (r : Record) (j : ℕ)
    (hnc : r.gt_overlaps_grid.ncols ≠ 0)
    (hj : j < boxes_grid.length)
    (hjr : j < r.gt_overlaps_grid.rows.length)
    (ht : cfg.BBOX_THRESH ≤ npMax (r.gt_overlaps_grid.rows.getD j [])) :
    let row := r.gt_overlaps_grid.rows.getD j []
    let g := npArgmax row
    let ex := boxes_grid.getD j zeroBox
    let gt := r.boxes_all.getD g zeroBox
    let ex_w : ℚ := ex.x2 - ex.x1 + cfg.EPS
    let ex_h : ℚ := ex.y2 - ex.y1 + cfg.EPS
    let gt_w : ℚ := gt.x2 - gt.x1 + cfg.EPS
    let gt_h : ℚ := gt.y2 - gt.y1 + cfg.EPS
    (rawTargetsOf cfg boxes_grid r).getD j zeroTRow =
      { cls := (tileClasses r.gt_classes cfg.nScales).getD g 0
      , d := { x := ((((gt.x1 + (1/2) * gt_w) - (ex.x1 + (1/2) * ex_w)) / ex_w : ℚ) : ℝ)
             , y := ((((gt.y1 + (1/2) * gt_h) - (ex.y1 + (1/2) * ex_h)) / ex_h : ℚ) : ℝ)
             , w := Real.log ((gt_w / ex_w : ℚ) : ℝ)
             , h := Real.log ((gt_h / ex_h : ℚ) : ℝ) } } := by
  intro row g ex gt ex_w ex_h gt_w gt_h
  unfold rawTargetsOf computeTargets
  rw [if_neg hnc, getD_map_range _ hj, if_pos hjr]
  unfold computeRow
  rw [if_pos ht]

/-- A one-box evaluation grid used by concrete witnesses. -/
def wGrid : List Box := [⟨0, 0, 10, 10⟩]

/-- A concrete config with integer-valued constants, used by witnesses. -/
def oneCfg : Cfg := ⟨1, 1, 1⟩

/-- A concrete record whose single grid box matches a class-2 candidate
`(0,5,10,15)` with overlap 1, used by the C7 witness. -/
def wRecC7 : Record :=
  { gt_overlaps := ⟨3, []⟩, gt_subindexes := [], boxes_all := [⟨0, 5, 10, 15⟩]
  , gt_overlaps_grid := ⟨1, [[1]]⟩, gt_classes := [2]
  , max_overlaps := none, max_classes := none, max_subclasses := none }

/-- Witness for C7: a grid box `(0,0,10,10)` matched to a candidate
`(0,5,10,15)` of class 2 with overlap 1 at threshold 1. -/
theorem c7_delta_parameterization_witness :
    (wRecC7.gt_overlaps_grid.ncols ≠ 0 ∧ 0 < wGrid.length ∧
      0 < wRecC7.gt_overlaps_grid.rows.length ∧
      oneCfg.BBOX_THRESH ≤ npMax (wRecC7.gt_overlaps_grid.rows.getD 0 [])) ∧
    (let row := wRecC7.gt_overlaps_grid.rows.getD 0 []
     let g := npArgmax row
     let ex := wGrid.getD 0 zeroBox
     let gt := wRecC7.boxes_all.getD g zeroBox
     let ex_w : ℚ := ex.x2 - ex.x1 + oneCfg.EPS
     let ex_h : ℚ := ex.y2 - ex.y1 + oneCfg.EPS
     let gt_w : ℚ := gt.x2 - gt.x1 + oneCfg.EPS
     let gt_h : ℚ := gt.y2 - gt.y1 + oneCfg.EPS
     (rawTargetsOf oneCfg wGrid wRecC7).getD 0 zeroTRow =
       { cls := (tileClasses wRecC7.gt_classes oneCfg.nScales).getD g 0
       , d := { x := ((((gt.x1 + (1/2) * gt_w) - (ex.x1 + (1/2) * ex_w)) / ex_w : ℚ) : ℝ)
              , y := ((((gt.y1 + (1/2) * gt_h) - (ex.y1 + (1/2) * ex_h)) / ex_h : ℚ) : ℝ)
              , w := Real.log ((gt_w / ex_w : ℚ) : ℝ)
              , h := Real.log ((gt_h / ex_h : ℚ) : ℝ) } }) := by
  refine ⟨⟨by decide, by decide, by decide, by decide⟩, ?_⟩
  exact c7_delta_parameterization oneCfg wGrid wRecC7 0
    (by decide) (by decide) (by decide) (by decide)

/-- `np.where(targets[:, 0] == cls)[0]`: the target rows carrying class
label `cls`. -/
def classRows (rows : List TRow) (cls : ℕ) : List TRow :=
  rows.filter fun r => r.cls == cls

/-- Column `k` of the deltas of the class-`cls` rows, guarded by the sweep
range `for cls in xrange(1, num_classes)`: classes outside `1..nc-1` are
never accumulated, leaving their sums and counts at zero. -/
def clsColG (nc : ℕ) (rows : List TRow) (cls : ℕ) (f : D4 → ℝ) : List ℝ :=
  if 1 ≤ cls ∧ cls < nc then (classRows rows cls).map (fun r => f r.d) else []

/-- `class_counts[cls] = cfg.EPS + (number of contributing rows)`. -/
def clsCount (nc : ℕ) (rows : List TRow) (cls : ℕ) : ℕ :=
  if 1 ≤ cls ∧ cls < nc then (classRows rows cls).length else 0

/-- `sums[cls]/class_counts[cls]` for one delta column. -/
noncomputable def colMean (ε : ℚ) (l : List ℝ) : ℝ :=
  l.sum / ((ε : ℝ) + (l.length : ℕ))

/-- `squared_sums[cls]/class_counts[cls] - means[cls]**2` for one delta
column: the radicand of the standard-deviation computation. -/
noncomputable def colRad (ε : ℚ) (l : List ℝ) : ℝ :=
  (l.map (fun v => v ^ 2)).sum / ((ε : ℝ) + (l.length : ℕ)) - colMean ε l ^ 2

/-- `means[cls] = sums[cls] / class_counts[cls]` (per-class 4-vector). -/
noncomputable def meansOf (ε : ℚ) (nc : ℕ) (rows : List TRow) (cls : ℕ) : D4 :=
  ⟨colMean ε (clsColG nc rows cls (fun d => d.x)),
   colMean ε (clsColG nc rows cls (fun d => d.y)),
   colMean ε (clsColG nc rows cls (fun d => d.w)),
   colMean ε (clsColG nc rows cls (fun d => d.h))⟩

/-- The radicand `squared_sums/class_counts - means**2` (per-class 4-vector). -/
noncomputable def radicandOf (ε : ℚ) (nc : ℕ) (rows : List TRow) (cls : ℕ) : D4 :=
  ⟨colRad ε (clsColG nc rows cls (fun d => d.x)),
   colRad ε (clsColG nc rows cls (fun d => d.y)),
   colRad ε (clsColG nc rows cls (fun d => d.w)),
   colRad ε (clsColG nc rows cls (fun d => d.h))⟩

/-- `stds = np.sqrt(squared_sums / class_counts - means ** 2)`: the source
takes the square root of the radicand directly, with no clamping. -/
noncomputable def stdsOf (ε : ℚ) (nc : ℕ) (rows : List TRow) (cls : ℕ) : D4 :=
  ⟨Real.sqrt (colRad ε (clsColG nc rows cls (fun d => d.x))),
   Real.sqrt (colRad ε (clsColG nc rows cls (fun d => d.y))),
   Real.sqrt (colRad ε (clsColG nc rows cls (fun d => d.w))),
   Real.sqrt (colRad ε (clsColG nc rows cls (fun d => d.h)))⟩

/-- The formula the spec claims for the standard deviations:
`sqrt(max(0, squared_sums/counts − means²))`, clamped to zero before the
square root.  Stated from the spec's words, to be compared with `stdsOf`. -/
noncomputable def sqrtClampSpec (d : D4) : D4 :=
  ⟨Real.sqrt (max 0 d.x), Real.sqrt (max 0 d.y),
   Real.sqrt (max 0 d.w), Real.sqrt (max 0 d.h)⟩

open Classical in
/-- The second sweep of `add_bbox_regression_targets`, per row: rows whose
label lies in `1..nc-1` are mean-centered and, when `stds[cls, 0] != 0`,
divided componentwise by the class's std 4-vector; all other rows are
untouched. -/
noncomputable def normRow (ε : ℚ) (nc : ℕ) (rows : List TRow) (r : TRow) : TRow :=
  if 1 ≤ r.cls ∧ r.cls < nc then
    let m := meansOf ε nc rows r.cls
    let s := stdsOf ε nc rows r.cls
    let centered := r.d - m
    ⟨r.cls, if s.x ≠ 0 then centered / s else centered⟩
  else r

/-- The concatenation of every image's first-pass `bbox_targets`: both
accumulation sweeps of `add_bbox_regression_targets` range over exactly
these rows. -/
noncomputable def corpusRows (cfg : Cfg) (boxes_grid : List Box)
    (roidb : List Record) : List TRow :=
  (roidb.map (rawTargetsOf cfg boxes_grid)).flatten

/-- `num_classes = roidb[0]['gt_overlaps'].shape[1]`. -/
def ncOf : List Record → ℕ
  | [] => 0
  | r :: _ => r.gt_overlaps.ncols

/-- Every image's `bbox_targets` after the normalization sweep.  (The
final `scipy.sparse.csr_matrix` conversion is a storage change and is not
modelled.) -/
noncomputable def normTargetsOf (cfg : Cfg) (boxes_grid : List Box)
    (roidb : List Record) : List (List TRow) :=
  roidb.map fun r =>
    (rawTargetsOf cfg boxes_grid r).map
      (normRow cfg.EPS (ncOf roidb) (corpusRows cfg boxes_grid roidb))

/-- The returned `means` array (one 4-vector per class; `ravel()` is a
layout change and is not modelled). -/
noncomputable def meansArr (cfg : Cfg) (boxes_grid : List Box)
    (roidb : List Record) : List D4 :=
  (List.range (ncOf roidb)).map
    (meansOf cfg.EPS (ncOf roidb) (corpusRows cfg boxes_grid roidb))

/-- The returned `stds` array. -/
noncomputable def stdsArr (cfg : Cfg) (boxes_grid : List Box)
    (roidb : List Record) : List D4 :=
  (List.range (ncOf roidb)).map
    (stdsOf cfg.EPS (ncOf roidb) (corpusRows cfg boxes_grid roidb))

/-- `add_bbox_regression_targets(roidb, boxes_grid)`: `none` models the two
opening assertions (`len(roidb) > 0`, `'max_classes' in roidb[0]`) firing;
otherwise the per-image targets are computed, normalized in place, and the
per-class means and stds are returned. -/
noncomputable def add_bbox_regression_targets (cfg : Cfg) (roidb : List Record)
    (boxes_grid : List Box) :
    Option (List (List TRow) × List D4 × List D4) :=
  match roidb with
  | [] => none
  | r0 :: rest =>
      if r0.max_classes.isSome then
        some (normTargetsOf cfg boxes_grid (r0 :: rest),
              meansArr cfg boxes_grid (r0 :: rest),
              stdsArr cfg boxes_grid (r0 :: rest))
      else none

theorem sum_sq_nonneg (l : List ℝ) : 0 ≤ (l.map (fun v => v ^ 2)).sum :=
  List.sum_nonneg fun x hx => by
    rcases List.mem_map.mp hx with ⟨v, _, rfl⟩
    exact sq_nonneg v

theorem two_mul_sum_le (a : ℝ) :
    ∀ l : List ℝ, 2 * a * l.sum ≤ l.length * a ^ 2 + (l.map (fun v => v ^ 2)).sum
  | [] => by simp
  | x :: t => by
      have ih := two_mul_sum_le a t
      have h2 : 2 * a * x ≤ a ^ 2 + x ^ 2 := two_mul_le_add_sq a x
      simp only [List.sum_cons, List.map_cons, List.length_cons]
      push_cast
      nlinarith [ih, h2]

theorem sq_sum_le_length_mul_sum_sq :
    ∀ l : List ℝ, l.sum ^ 2 ≤ l.length * (l.map (fun v => v ^ 2)).sum
  | [] => by simp
  | x :: t => by
      have ih := sq_sum_le_length_mul_sum_sq t
      have h2 := two_mul_sum_le x t
      have hq := sum_sq_nonneg t
      simp only [List.sum_cons, List.map_cons, List.length_cons]
      push_cast
      nlinarith [ih, h2, hq, sq_nonneg x]

/-- With epsilon-seeded counts the radicand of the std computation is
non-negative in exact arithmetic (discrete Cauchy-Schwarz). -/
theorem colRad_nonneg {ε : ℚ} (hε : 0 < ε) (l : List ℝ) : 0 ≤ colRad ε l := by
  have hε' : (0 : ℝ) < (ε : ℝ) := by exact_mod_cast hε
  have hc : (0 : ℝ) < (ε : ℝ) + l.length := by positivity
  have hQ := sum_sq_nonneg l
  have hkey : l.sum ^ 2 ≤ (l.map (fun v => v ^ 2)).sum * ((ε : ℝ) + l.length) := by
    have h1 := sq_sum_le_length_mul_sum_sq l
    nlinarith [h1, hQ, hε']
  unfold colRad colMean
  rw [div_pow, sub_nonneg, div_le_div_iff₀ (by positivity) hc]
  calc l.sum ^ 2 * ((ε : ℝ) + l.length)
      ≤ ((l.map (fun v => v ^ 2)).sum * ((ε : ℝ) + l.length)) * ((ε : ℝ) + l.length) :=
        mul_le_mul_of_nonneg_right hkey hc.le
    _ = (l.map (fun v => v ^ 2)).sum * ((ε : ℝ) + l.length) ^ 2 := by ring

/-- With a positive epsilon, a column's radicand vanishes only when every
value in the column is exactly zero. -/
theorem col_zero_of_colRad_eq_zero {ε : ℚ} (hε : 0 < ε) (l : List ℝ)
    (h : colRad ε l = 0) : ∀ v ∈ l, v = 0 := by
  have hε' : (0 : ℝ) < (ε : ℝ) := by exact_mod_cast hε
  have hc : (0 : ℝ) < (ε : ℝ) + l.length := by positivity
  have hQc : (l.map (fun v => v ^ 2)).sum * ((ε : ℝ) + l.length) = l.sum ^ 2 := by
    unfold colRad colMean at h
    rw [div_pow, sub_eq_zero] at h
    rw [div_eq_div_iff hc.ne' (by positivity)] at h
    nlinarith [h, hc]
  have hQ0 : (l.map (fun v => v ^ 2)).sum = 0 := by
    by_contra hne
    have hQpos : 0 < (l.map (fun v => v ^ 2)).sum :=
      lt_of_le_of_ne (sum_sq_nonneg l) (Ne.symm hne)
    have hCS := sq_sum_le_length_mul_sum_sq l
    nlinarith [hQc, hCS, hε', hQpos]
  intro v hv
  have hv2 : v ^ 2 ∈ l.map (fun v => v ^ 2) := List.mem_map_of_mem _ hv
  have hle : v ^ 2 ≤ 0 := by
    have := List.single_le_sum (l := l.map (fun v => v ^ 2))
      (fun x hx => by
        rcases List.mem_map.mp hx with ⟨u, _, rfl⟩
        exact sq_nonneg u) _ hv2
    rw [hQ0] at this
    exact this
  exact sq_eq_zero_iff.mp (le_antisymm hle (sq_nonneg v))

/-- The zero-vanishing of a column forces its mean to zero. -/
theorem colMean_eq_zero_of_all_zero {ε : ℚ} {l : List ℝ}
    (h : ∀ v ∈ l, v = 0) : colMean ε l = 0 := by
  unfold colMean
  rw [List.sum_eq_zero h, zero_div]

/-- One scalar column of the round trip `normalized * std + mean = raw`;
holds for every member of the column whether or not the column's std
vanishes (a vanishing std forces the whole column, and its mean, to zero). -/
theorem roundtrip_col {ε : ℚ} (hε : 0 < ε) {l : List ℝ} {v : ℝ} (hv : v ∈ l) :
    (v - colMean ε l) / Real.sqrt (colRad ε l) * Real.sqrt (colRad ε l)
      + colMean ε l = v := by
  by_cases hs : Real.sqrt (colRad ε l) = 0
  · have hrad : colRad ε l = 0 := (Real.sqrt_eq_zero (colRad_nonneg hε l)).mp hs
    have hall := col_zero_of_colRad_eq_zero hε l hrad
    have hv0 : v = 0 := hall v hv
    have hm : colMean ε l = 0 := colMean_eq_zero_of_all_zero hall
    rw [hv0, hm, hs]
    simp
  · rw [div_mul_cancel₀ _ hs]
    ring

/-- Membership of a row's delta component in its class column. -/
theorem mem_clsColG (nc : ℕ) (rows : List TRow) (f : D4 → ℝ) (r : TRow)
    (hmem : r ∈ rows) (hrange : 1 ≤ r.cls ∧ r.cls < nc) :
    f r.d ∈ clsColG nc rows r.cls f := by
  unfold clsColG
  rw [if_pos hrange]
  exact List.mem_map_of_mem _ (List.mem_filter.mpr ⟨hmem, by simp⟩)

/-- Componentwise non-negativity of a delta 4-vector. -/
def D4.Nonneg (d : D4) : Prop := 0 ≤ d.x ∧ 0 ≤ d.y ∧ 0 ≤ d.w ∧ 0 ≤ d.h

/-- C3: under a positive epsilon, the radicand `squared_sums/counts − means²`
of the standard-deviation computation is non-negative for every class in
exact arithmetic, so the stds actually computed (a plain square root of
the radicand) coincide with the spec's clamped formula
`sqrt(max(0, squared_sums/counts − means²))` and are non-negative (in this
exact-real model no NaN value exists; non-negativity is the corresponding
property). -/
theorem c3_stds_sqrt_clamped (cfg : Cfg) (roidb : List Record)
    (boxes_grid : List Box) (r0 : Record) (rest : List Record)
    (hr : roidb = r0 :: rest) (hsome : r0.max_classes.isSome)
    (hε : 0 < cfg.EPS) (cls : ℕ) (hcls : cls < ncOf roidb) :
    add_bbox_regression_targets cfg roidb boxes_grid =
      some (normTargetsOf cfg boxes_grid roidb, meansArr cfg boxes_grid roidb,
        stdsArr cfg boxes_grid roidb) ∧
    (radicandOf cfg.EPS (ncOf roidb) (corpusRows cfg boxes_grid roidb) cls).Nonneg ∧
    (stdsArr cfg boxes_grid roidb).getD cls 0 =
      sqrtClampSpec
        (radicandOf cfg.EPS (ncOf roidb) (corpusRows cfg boxes_grid roidb) cls) ∧
    ((stdsArr cfg boxes_grid roidb).getD cls 0).Nonneg := by
  subst hr
  have hrad : ∀ f : D4 → ℝ,
      0 ≤ colRad cfg.EPS (clsColG (ncOf (r0 :: rest))
        (corpusRows cfg boxes_grid (r0 :: rest)) cls f) :=
    fun f => colRad_nonneg hε _
  have hstd : (stdsArr cfg boxes_grid (r0 :: rest)).getD cls 0 =
      stdsOf cfg.EPS (ncOf (r0 :: rest)) (corpusRows cfg boxes_grid (r0 :: rest)) cls := by
    unfold stdsArr
    exact getD_map_range _ hcls _
  refine ⟨?_, ⟨hrad _, hrad _, hrad _, hrad _⟩, ?_, ?_⟩
  · show add_bbox_regression_targets cfg (r0 :: rest) boxes_grid = _
    simp [add_bbox_regression_targets, hsome]
  · rw [hstd]
    unfold stdsOf sqrtClampSpec radicandOf
    have hmax : ∀ f : D4 → ℝ,
        max 0 (colRad cfg.EPS (clsColG (ncOf (r0 :: rest))
          (corpusRows cfg boxes_grid (r0 :: rest)) cls f)) =
        colRad cfg.EPS (clsColG (ncOf (r0 :: rest))
          (corpusRows cfg boxes_grid (r0 :: rest)) cls f) :=
      fun f => max_eq_right (hrad f)
    rw [hmax, hmax, hmax, hmax]
  · rw [hstd]
    exact ⟨Real.sqrt_nonneg _, Real.sqrt_nonneg _, Real.sqrt_nonneg _,
      Real.sqrt_nonneg _⟩

/-- A one-image corpus used by normalization witnesses: its single grid
box matches a class-1 candidate shifted by 5 in x, giving a nonzero dx
column. -/
def wRecNorm : Record :=
  { gt_overlaps := ⟨2, []⟩, gt_subindexes := [], boxes_all := [⟨5, 0, 15, 10⟩]
  , gt_overlaps_grid := ⟨1, [[1]]⟩, gt_classes := [1]
  , max_overlaps := none, max_classes := some [], max_subclasses := none }

/-- Witness for C3 at a concrete one-image corpus. -/
theorem c3_stds_sqrt_clamped_witness :
    ([wRecNorm] = wRecNorm :: [] ∧ wRecNorm.max_classes.isSome ∧
      0 < (⟨1, 1, 1⟩ : Cfg).EPS ∧ 1 < ncOf [wRecNorm]) ∧
    ((radicandOf (⟨1, 1, 1⟩ : Cfg).EPS (ncOf [wRecNorm])
        (corpusRows ⟨1, 1, 1⟩ wGrid [wRecNorm]) 1).Nonneg ∧
      (stdsArr ⟨1, 1, 1⟩ wGrid [wRecNorm]).getD 1 0 =
        sqrtClampSpec (radicandOf (⟨1, 1, 1⟩ : Cfg).EPS (ncOf [wRecNorm])
          (corpusRows ⟨1, 1, 1⟩ wGrid [wRecNorm]) 1)) := by
  refine ⟨⟨rfl, rfl, by decide, by decide⟩, ?_, ?_⟩
  · exact (c3_stds_sqrt_clamped ⟨1, 1, 1⟩ [wRecNorm] wGrid wRecNorm []
      rfl rfl (by decide) 1 (by decide)).2.1
  · exact (c3_stds_sqrt_clamped ⟨1, 1, 1⟩ [wRecNorm] wGrid wRecNorm []
      rfl rfl (by decide) 1 (by decide)).2.2.1

/-- C9: calling the normalization pass on a non-empty record collection
none of whose records carries the derived `max_classes` field (i.e.
`prepare_roidb` has not run) aborts immediately: the opening assertion
fires and nothing is computed or rewritten. -/
theorem c9_missing_precondition (cfg : Cfg) (roidb : List Record)
    (boxes_grid : List Box) (hne : roidb ≠ [])
    (habs : ∀ r ∈ roidb, r.max_classes = none) :
    add_bbox_regression_targets cfg roidb boxes_grid = none := by
  match roidb with
  | [] => exact absurd rfl hne
  | r0 :: rest =>
      have h0 : r0.max_classes = none := habs r0 (List.mem_cons_self _ _)
      simp [add_bbox_regression_targets, h0]

/-- Witness for C9: one un-enriched record. -/
theorem c9_missing_precondition_witness :
    (([emptyRecord] : List Record) ≠ [] ∧
      ∀ r ∈ ([emptyRecord] : List Record), r.max_classes = none) ∧
    add_bbox_regression_targets ⟨1, 1, 1⟩ [emptyRecord] wGrid = none := by
  refine ⟨⟨by decide, by decide⟩, ?_⟩
  exact c9_missing_precondition ⟨1, 1, 1⟩ [emptyRecord] wGrid (by decide) (by decide)

theorem classRows_filter_inRange (nc : ℕ) (rows : List TRow) (cls : ℕ)
    (hcls : 1 ≤ cls ∧ cls < nc) :
    classRows (rows.filter fun r => decide (1 ≤ r.cls ∧ r.cls < nc)) cls =
      classRows rows cls := by
  unfold classRows
  rw [List.filter_filter]
  apply List.filter_congr
  intro r _
  by_cases hc : r.cls = cls
  · have hp : decide (1 ≤ r.cls ∧ r.cls < nc) = true := by
      rw [decide_eq_true_iff]
      exact hc ▸ hcls
    rw [hp]
    simp [hc]
  · simp [hc]

theorem clsColG_filter_inRange (nc : ℕ) (rows : List TRow) (cls : ℕ)
    (f : D4 → ℝ) :
    clsColG nc (rows.filter fun r => decide (1 ≤ r.cls ∧ r.cls < nc)) cls f =
      clsColG nc rows cls f := by
  unfold clsColG
  by_cases h : 1 ≤ cls ∧ cls < nc
  · rw [if_pos h, if_pos h, classRows_filter_inRange nc rows cls h]
  · rw [if_neg h, if_neg h]

/-- C10 (implicit): `num_classes` is read off the first record's overlap
matrix column count; the normalization sweep leaves every target row whose
label is `0` or `>= num_classes` untouched, and the returned per-class
means and stds are unchanged if all such rows are removed from the corpus
(they contribute nothing to the statistics). -/
theorem c10_out_of_range_rows (cfg : Cfg) (roidb : List Record)
    (boxes_grid : List Box) (r0 : Record) (rest : List Record)
    (hr : roidb = r0 :: rest) (hsome : r0.max_classes.isSome)
    (i j : ℕ) (hi : i < roidb.length)
    (hj : j < (rawTargetsOf cfg boxes_grid (roidb.getD i emptyRecord)).length)
    (hout : ((rawTargetsOf cfg boxes_grid (roidb.getD i emptyRecord)).getD j
        zeroTRow).cls = 0 ∨
      ncOf roidb ≤ ((rawTargetsOf cfg boxes_grid (roidb.getD i
        emptyRecord)).getD j zeroTRow).cls) :
    ncOf roidb = r0.gt_overlaps.ncols ∧
    add_bbox_regression_targets cfg roidb boxes_grid =
      some (normTargetsOf cfg boxes_grid roidb, meansArr cfg boxes_grid roidb,
        stdsArr cfg boxes_grid roidb) ∧
    ((normTargetsOf cfg boxes_grid roidb).getD i []).getD j zeroTRow =
      (rawTargetsOf cfg boxes_grid (roidb.getD i emptyRecord)).getD j zeroTRow ∧
    (∀ cls,
      meansOf cfg.EPS (ncOf roidb)
        ((corpusRows cfg boxes_grid roidb).filter fun r =>
          decide (1 ≤ r.cls ∧ r.cls < ncOf roidb)) cls =
        meansOf cfg.EPS (ncOf roidb) (corpusRows cfg boxes_grid roidb) cls ∧
      stdsOf cfg.EPS (ncOf roidb)
        ((corpusRows cfg boxes_grid roidb).filter fun r =>
          decide (1 ≤ r.cls ∧ r.cls < ncOf roidb)) cls =
        stdsOf cfg.EPS (ncOf roidb) (corpusRows cfg boxes_grid roidb) cls) := by
  refine ⟨by rw [hr]; rfl, ?_, ?_, ?_⟩
  · subst hr
    show add_bbox_regression_targets cfg (r0 :: rest) boxes_grid = _
    simp [add_bbox_regression_targets, hsome]
  · have hnorm : ((normTargetsOf cfg boxes_grid roidb).getD i []).getD j zeroTRow =
        normRow cfg.EPS (ncOf roidb) (corpusRows cfg boxes_grid roidb)
          ((rawTargetsOf cfg boxes_grid (roidb.getD i emptyRecord)).getD j
            zeroTRow) := by
      unfold normTargetsOf
      rw [getD_map_of_lt _ hi emptyRecord]
      exact getD_map_of_lt _ hj zeroTRow zeroTRow
    rw [hnorm]
    unfold normRow
    rw [if_neg]
    rcases hout with h0 | hge
    · intro hcon
      rw [h0] at hcon
      exact absurd hcon.1 (by norm_num)
    · intro hcon
      exact absurd hcon.2 (not_lt_of_le hge)
  · intro cls
    constructor
    · unfold meansOf
      rw [clsColG_filter_inRange, clsColG_filter_inRange, clsColG_filter_inRange,
        clsColG_filter_inRange]
    · unfold stdsOf
      rw [clsColG_filter_inRange, clsColG_filter_inRange, clsColG_filter_inRange,
        clsColG_filter_inRange]

/-- A one-image corpus whose single ground-truth class `5` exceeds the
inferred `num_classes = 2`, used by the C10 witness. -/
def wRecOut : Record :=
  { gt_overlaps := ⟨2, []⟩, gt_subindexes := [], boxes_all := [⟨5, 0, 15, 10⟩]
  , gt_overlaps_grid := ⟨1, [[1]]⟩, gt_classes := [5]
  , max_overlaps := none, max_classes := some [], max_subclasses := none }

/-- Witness for C10: the class-5 row (label `>= num_classes = 2`) passes
through normalization unchanged. -/
theorem c10_out_of_range_rows_witness :
    ([wRecOut] = wRecOut :: [] ∧ wRecOut.max_classes.isSome ∧
      (0 : ℕ) < [wRecOut].length ∧
      0 < (rawTargetsOf oneCfg wGrid ([wRecOut].getD 0 emptyRecord)).length ∧
      ncOf [wRecOut] ≤
        ((rawTargetsOf oneCfg wGrid ([wRecOut].getD 0 emptyRecord)).getD 0
          zeroTRow).cls) ∧
    ((normTargetsOf oneCfg wGrid [wRecOut]).getD 0 []).getD 0 zeroTRow =
      (rawTargetsOf oneCfg wGrid ([wRecOut].getD 0 emptyRecord)).getD 0
        zeroTRow := by
  have hlen : 0 < (rawTargetsOf oneCfg wGrid ([wRecOut].getD 0 emptyRecord)).length := by
    simp [rawTargetsOf, computeTargets, wRecOut, wGrid, emptyRecord]
  have hcls : ((rawTargetsOf oneCfg wGrid ([wRecOut].getD 0 emptyRecord)).getD 0
      zeroTRow).cls = 5 := by
    simp [rawTargetsOf, computeTargets, computeRow, wRecOut, wGrid, emptyRecord,
      tileClasses, npMax, npArgmax, oneCfg]
  refine ⟨⟨rfl, rfl, by decide, hlen, ?_⟩, ?_⟩
  · rw [hcls]
    show ncOf [wRecOut] ≤ 5
    decide
  · exact (c10_out_of_range_rows oneCfg [wRecOut] wGrid wRecOut [] rfl rfl 0 0
      (by decide) hlen (Or.inr (by rw [hcls]; show ncOf [wRecOut] ≤ 5; decide))).2.2.1

open Classical in
/-- C4 (amended): the second sweep's division decision is made per class
from the FIRST component of the class's std 4-vector (`stds[cls, 0]`,
the dx column), not from the whole vector: rows whose label lies in
`1..num_classes-1` are mean-centered and then divided componentwise by the
std 4-vector exactly when the first std component is nonzero (all four
columns divided, or none); all other rows are untouched. -/
theorem c4_amended_guard_on_first_std (cfg : Cfg) (roidb : List Record)
    (boxes_grid : List Box) (r0 : Record) (rest : List Record)
    (hr : roidb = r0 :: rest) (hsome : r0.max_classes.isSome)
    (i j : ℕ) (hi : i < roidb.length)
    (hj : j < (rawTargetsOf cfg boxes_grid (roidb.getD i emptyRecord)).length)
    (raw : TRow)
    (hraw : raw = (rawTargetsOf cfg boxes_grid (roidb.getD i emptyRecord)).getD j
      zeroTRow)
    (m : D4)
    (hm : m = meansOf cfg.EPS (ncOf roidb) (corpusRows cfg boxes_grid roidb)
      raw.cls)
    (s : D4)
    (hs : s = stdsOf cfg.EPS (ncOf roidb) (corpusRows cfg boxes_grid roidb)
      raw.cls) :
    add_bbox_regression_targets cfg roidb boxes_grid =
      some (normTargetsOf cfg boxes_grid roidb, meansArr cfg boxes_grid roidb,
        stdsArr cfg boxes_grid roidb) ∧
    ((normTargetsOf cfg boxes_grid roidb).getD i []).getD j zeroTRow =
      (if 1 ≤ raw.cls ∧ raw.cls < ncOf roidb then
        if s.x = 0 then (⟨raw.cls, raw.d - m⟩ : TRow)
        else ⟨raw.cls, (raw.d - m) / s⟩
      else raw) := by
  subst hm hs hraw
  constructor
  · subst hr
    show add_bbox_regression_targets cfg (r0 :: rest) boxes_grid = _
    simp [add_bbox_regression_targets, hsome]
  · have hnorm : ((normTargetsOf cfg boxes_grid roidb).getD i []).getD j zeroTRow =
        normRow cfg.EPS (ncOf roidb) (corpusRows cfg boxes_grid roidb)
          ((rawTargetsOf cfg boxes_grid (roidb.getD i emptyRecord)).getD j
            zeroTRow) := by
      unfold normTargetsOf
      rw [getD_map_of_lt _ hi emptyRecord]
      exact getD_map_of_lt _ hj zeroTRow zeroTRow
    rw [hnorm]
    unfold normRow
    dsimp only
    by_cases hrange : 1 ≤ ((rawTargetsOf cfg boxes_grid (roidb.getD i
        emptyRecord)).getD j zeroTRow).cls ∧
        ((rawTargetsOf cfg boxes_grid (roidb.getD i emptyRecord)).getD j
          zeroTRow).cls < ncOf roidb
    · rw [if_pos hrange, if_pos hrange]
      by_cases hsx : (stdsOf cfg.EPS (ncOf roidb) (corpusRows cfg boxes_grid
          roidb) ((rawTargetsOf cfg boxes_grid (roidb.getD i
            emptyRecord)).getD j zeroTRow).cls).x = 0
      · rw [if_neg (not_not_intro hsx), if_pos hsx]
      · rw [if_pos hsx, if_neg hsx]
    · rw [if_neg hrange, if_neg hrange]

open Classical in
/-- Witness for the amended C4 at the one-image corpus `wRecNorm`. -/
theorem c4_amended_guard_on_first_std_witness :
    ([wRecNorm] = wRecNorm :: [] ∧ wRecNorm.max_classes.isSome ∧
      (0 : ℕ) < [wRecNorm].length ∧
      0 < (rawTargetsOf oneCfg wGrid ([wRecNorm].getD 0 emptyRecord)).length) ∧
    ((normTargetsOf oneCfg wGrid [wRecNorm]).getD 0 []).getD 0 zeroTRow =
      (if 1 ≤ ((rawTargetsOf oneCfg wGrid ([wRecNorm].getD 0
            emptyRecord)).getD 0 zeroTRow).cls ∧
          ((rawTargetsOf oneCfg wGrid ([wRecNorm].getD 0 emptyRecord)).getD 0
            zeroTRow).cls < ncOf [wRecNorm] then
        if (stdsOf oneCfg.EPS (ncOf [wRecNorm]) (corpusRows oneCfg wGrid
            [wRecNorm]) ((rawTargetsOf oneCfg wGrid ([wRecNorm].getD 0
              emptyRecord)).getD 0 zeroTRow).cls).x = 0 then
          (⟨((rawTargetsOf oneCfg wGrid ([wRecNorm].getD 0 emptyRecord)).getD 0
              zeroTRow).cls,
            ((rawTargetsOf oneCfg wGrid ([wRecNorm].getD 0 emptyRecord)).getD 0
              zeroTRow).d -
            meansOf oneCfg.EPS (ncOf [wRecNorm]) (corpusRows oneCfg wGrid
              [wRecNorm]) ((rawTargetsOf oneCfg wGrid ([wRecNorm].getD 0
                emptyRecord)).getD 0 zeroTRow).cls⟩ : TRow)
        else
          ⟨((rawTargetsOf oneCfg wGrid ([wRecNorm].getD 0 emptyRecord)).getD 0
              zeroTRow).cls,
            (((rawTargetsOf oneCfg wGrid ([wRecNorm].getD 0 emptyRecord)).getD 0
              zeroTRow).d -
             meansOf oneCfg.EPS (ncOf [wRecNorm]) (corpusRows oneCfg wGrid
               [wRecNorm]) ((rawTargetsOf oneCfg wGrid ([wRecNorm].getD 0
                 emptyRecord)).getD 0 zeroTRow).cls) /
            stdsOf oneCfg.EPS (ncOf [wRecNorm]) (corpusRows oneCfg wGrid
              [wRecNorm]) ((rawTargetsOf oneCfg wGrid ([wRecNorm].getD 0
                emptyRecord)).getD 0 zeroTRow).cls⟩
      else
        (rawTargetsOf oneCfg wGrid ([wRecNorm].getD 0 emptyRecord)).getD 0
          zeroTRow) := by
  have hj : 0 < (rawTargetsOf oneCfg wGrid ([wRecNorm].getD 0 emptyRecord)).length := by
    simp [rawTargetsOf, computeTargets, wRecNorm, wGrid, emptyRecord]
  refine ⟨⟨rfl, rfl, by decide, hj⟩, ?_⟩
  exact (c4_amended_guard_on_first_std oneCfg [wRecNorm] wGrid wRecNorm [] rfl
    rfl 0 0 (by decide) hj _ rfl _ rfl _ rfl).2

/-- C8 (amended): for a class with a contributing example whose
`stds[cls][0]` (the component the code's guard actually tests) is nonzero,
the second sweep rewrites each row of that class to
`(raw − mean)/std` componentwise, and `normalized * std + mean` recovers
the raw deltas exactly — including in columns whose own std component is
zero, since with a positive epsilon such a column is identically zero. -/
theorem c8_amended_roundtrip (cfg : Cfg) (roidb : List Record)
    (boxes_grid : List Box) (r0 : Record) (rest : List Record)
    (hr : roidb = r0 :: rest) (hsome : r0.max_classes.isSome)
    (hε : 0 < cfg.EPS) (r : TRow)
    (hmem : r ∈ corpusRows cfg boxes_grid roidb)
    (hrange : 1 ≤ r.cls ∧ r.cls < ncOf roidb)
    (hcnt : 1 ≤ clsCount (ncOf roidb) (corpusRows cfg boxes_grid roidb) r.cls)
    (hstd : (stdsOf cfg.EPS (ncOf roidb) (corpusRows cfg boxes_grid roidb)
      r.cls).x ≠ 0) :
    add_bbox_regression_targets cfg roidb boxes_grid =
      some (normTargetsOf cfg boxes_grid roidb, meansArr cfg boxes_grid roidb,
        stdsArr cfg boxes_grid roidb) ∧
    normRow cfg.EPS (ncOf roidb) (corpusRows cfg boxes_grid roidb) r =
      ⟨r.cls, (r.d - meansOf cfg.EPS (ncOf roidb) (corpusRows cfg boxes_grid
          roidb) r.cls) /
        stdsOf cfg.EPS (ncOf roidb) (corpusRows cfg boxes_grid roidb) r.cls⟩ ∧
    ((r.d - meansOf cfg.EPS (ncOf roidb) (corpusRows cfg boxes_grid roidb)
        r.cls) /
      stdsOf cfg.EPS (ncOf roidb) (corpusRows cfg boxes_grid roidb) r.cls) *
      stdsOf cfg.EPS (ncOf roidb) (corpusRows cfg boxes_grid roidb) r.cls +
      meansOf cfg.EPS (ncOf roidb) (corpusRows cfg boxes_grid roidb) r.cls =
      r.d := by
  refine ⟨?_, ?_, ?_⟩
  · subst hr
    show add_bbox_regression_targets cfg (r0 :: rest) boxes_grid = _
    simp [add_bbox_regression_targets, hsome]
  · unfold normRow
    dsimp only
    rw [if_pos hrange, if_pos hstd]
  · apply D4.ext
    · exact roundtrip_col hε (mem_clsColG _ _ (fun d => d.x) r hmem hrange)
    · exact roundtrip_col hε (mem_clsColG _ _ (fun d => d.y) r hmem hrange)
    · exact roundtrip_col hε (mem_clsColG _ _ (fun d => d.w) r hmem hrange)
    · exact roundtrip_col hε (mem_clsColG _ _ (fun d => d.h) r hmem hrange)

theorem wNormRaw : rawTargetsOf oneCfg wGrid wRecNorm =
    [⟨1, ⟨((5/11 : ℚ) : ℝ), 0, 0, 0⟩⟩] := by
  unfold rawTargetsOf computeTargets computeRow
  norm_num [wRecNorm, wGrid, oneCfg, tileClasses, npMax, npArgmax, zeroBox,
    List.range_succ, List.range_zero, Real.log_one]

theorem wNormCorpus : corpusRows oneCfg wGrid [wRecNorm] =
    [⟨1, ⟨((5/11 : ℚ) : ℝ), 0, 0, 0⟩⟩] := by
  unfold corpusRows
  simp [wNormRaw]

theorem wNormColX :
    clsColG (ncOf [wRecNorm]) (corpusRows oneCfg wGrid [wRecNorm]) 1
      (fun d => d.x) = [((5/11 : ℚ) : ℝ)] := by
  rw [wNormCorpus]
  show clsColG 2 _ 1 _ = _
  norm_num [clsColG, classRows]

theorem wNormStdX : (stdsOf oneCfg.EPS (ncOf [wRecNorm])
    (corpusRows oneCfg wGrid [wRecNorm]) 1).x ≠ 0 := by
  show Real.sqrt (colRad oneCfg.EPS (clsColG (ncOf [wRecNorm])
    (corpusRows oneCfg wGrid [wRecNorm]) 1 (fun d => d.x))) ≠ 0
  rw [wNormColX, Real.sqrt_ne_zero']
  unfold colRad colMean
  push_cast
  norm_num [oneCfg]

/-- Witness for the amended C8 at the one-image corpus `wRecNorm`. -/
theorem c8_amended_roundtrip_witness :
    ([wRecNorm] = wRecNorm :: [] ∧ wRecNorm.max_classes.isSome ∧
      0 < oneCfg.EPS ∧
      (corpusRows oneCfg wGrid [wRecNorm]).getD 0 zeroTRow ∈
        corpusRows oneCfg wGrid [wRecNorm] ∧
      (1 ≤ ((corpusRows oneCfg wGrid [wRecNorm]).getD 0 zeroTRow).cls ∧
        ((corpusRows oneCfg wGrid [wRecNorm]).getD 0 zeroTRow).cls <
          ncOf [wRecNorm]) ∧
      1 ≤ clsCount (ncOf [wRecNorm]) (corpusRows oneCfg wGrid [wRecNorm])
        ((corpusRows oneCfg wGrid [wRecNorm]).getD 0 zeroTRow).cls ∧
      (stdsOf oneCfg.EPS (ncOf [wRecNorm]) (corpusRows oneCfg wGrid [wRecNorm])
        ((corpusRows oneCfg wGrid [wRecNorm]).getD 0 zeroTRow).cls).x ≠ 0) ∧
    ((((corpusRows oneCfg wGrid [wRecNorm]).getD 0 zeroTRow).d -
        meansOf oneCfg.EPS (ncOf [wRecNorm]) (corpusRows oneCfg wGrid
          [wRecNorm]) ((corpusRows oneCfg wGrid [wRecNorm]).getD 0
            zeroTRow).cls) /
      stdsOf oneCfg.EPS (ncOf [wRecNorm]) (corpusRows oneCfg wGrid [wRecNorm])
        ((corpusRows oneCfg wGrid [wRecNorm]).getD 0 zeroTRow).cls) *
      stdsOf oneCfg.EPS (ncOf [wRecNorm]) (corpusRows oneCfg wGrid [wRecNorm])
        ((corpusRows oneCfg wGrid [wRecNorm]).getD 0 zeroTRow).cls +
      meansOf oneCfg.EPS (ncOf [wRecNorm]) (corpusRows oneCfg wGrid [wRecNorm])
        ((corpusRows oneCfg wGrid [wRecNorm]).getD 0 zeroTRow).cls =
      ((corpusRows oneCfg wGrid [wRecNorm]).getD 0 zeroTRow).d := by
  have hlen : 0 < (corpusRows oneCfg wGrid [wRecNorm]).length := by
    rw [wNormCorpus]
    norm_num
  have hmem : (corpusRows oneCfg wGrid [wRecNorm]).getD 0 zeroTRow ∈
      corpusRows oneCfg wGrid [wRecNorm] := getD_mem_of_lt hlen zeroTRow
  have hcls : ((corpusRows oneCfg wGrid [wRecNorm]).getD 0 zeroTRow).cls = 1 := by
    rw [wNormCorpus]
    rfl
  have hrange : 1 ≤ ((corpusRows oneCfg wGrid [wRecNorm]).getD 0 zeroTRow).cls ∧
      ((corpusRows oneCfg wGrid [wRecNorm]).getD 0 zeroTRow).cls <
        ncOf [wRecNorm] := by
    rw [hcls]
    exact ⟨le_refl 1, by decide⟩
  have hcnt : 1 ≤ clsCount (ncOf [wRecNorm]) (corpusRows oneCfg wGrid [wRecNorm])
      ((corpusRows oneCfg wGrid [wRecNorm]).getD 0 zeroTRow).cls := by
    rw [hcls, wNormCorpus]
    norm_num [clsCount, classRows, ncOf, wRecNorm]
  have hstd : (stdsOf oneCfg.EPS (ncOf [wRecNorm]) (corpusRows oneCfg wGrid
      [wRecNorm]) ((corpusRows oneCfg wGrid [wRecNorm]).getD 0
        zeroTRow).cls).x ≠ 0 := by
    rw [hcls]
    exact wNormStdX
  refine ⟨⟨rfl, rfl, by decide, hmem, hrange, hcnt, hstd⟩, ?_⟩
  exact (c8_amended_roundtrip oneCfg [wRecNorm] wGrid wRecNorm [] rfl rfl
    (by decide) _ hmem hrange hcnt hstd).2.2

/-- Reading one normalized row out of the pipeline output. -/
theorem normTargets_getD (cfg : Cfg) (roidb : List Record)
    (boxes_grid : List Box) (i j : ℕ) (hi : i < roidb.length)
    (hj : j < (rawTargetsOf cfg boxes_grid (roidb.getD i emptyRecord)).length) :
    ((normTargetsOf cfg boxes_grid roidb).getD i []).getD j zeroTRow =
      normRow cfg.EPS (ncOf roidb) (corpusRows cfg boxes_grid roidb)
        ((rawTargetsOf cfg boxes_grid (roidb.getD i emptyRecord)).getD j
          zeroTRow) := by
  unfold normTargetsOf
  rw [getD_map_of_lt _ hi emptyRecord]
  exact getD_map_of_lt _ hj zeroTRow zeroTRow

/-- The deployed configuration: `cfg.EPS = 1e-14`,
`cfg.TRAIN.BBOX_THRESH = 0.5`, one training scale. -/
def cexEPS : ℚ := 1 / 100000000000000

/-- The counterexample configuration. -/
def cexCfg : Cfg := ⟨cexEPS, 1 / 2, 1⟩

/-- First counterexample image: its grid box `(0,0,10,10)` matches a
class-1 candidate `(0,5,10,15)` (pure y-shift, so `dx = 0`). -/
def cexRecA : Record :=
  { gt_overlaps := ⟨2, []⟩, gt_subindexes := [], boxes_all := [⟨0, 5, 10, 15⟩]
  , gt_overlaps_grid := ⟨1, [[7/10]]⟩, gt_classes := [1]
  , max_overlaps := none, max_classes := some [], max_subclasses := none }

/-- Second counterexample image: its grid box matches an identical
candidate (all deltas zero). -/
def cexRecB : Record :=
  { gt_overlaps := ⟨2, []⟩, gt_subindexes := [], boxes_all := [⟨0, 0, 10, 10⟩]
  , gt_overlaps_grid := ⟨1, [[7/10]]⟩, gt_classes := [1]
  , max_overlaps := none, max_classes := some [], max_subclasses := none }

/-- The two-image counterexample corpus: class 1 has dx column `[0, 0]`
(first std component zero) but dy column `[dyA, 0]` (second std component
nonzero). -/
def cexRoidb : List Record := [cexRecA, cexRecB]

/-- The dy delta of the first image's grid box. -/
noncomputable def dyA : ℝ := ((5 / (10 + cexEPS) : ℚ) : ℝ)

/-- The epsilon-seeded count of class 1 (`cfg.EPS + 2`). -/
noncomputable def cexC : ℝ := ((cexEPS : ℚ) : ℝ) + 2

/-- The dy-column radicand of class 1. -/
noncomputable def cexRY : ℝ := dyA ^ 2 / cexC - (dyA / cexC) ^ 2

theorem cexRawA_list : rawTargetsOf cexCfg wGrid cexRecA =
    [⟨1, ⟨0, dyA, 0, 0⟩⟩] := by
  unfold rawTargetsOf computeTargets computeRow dyA
  norm_num [cexRecA, wGrid, cexCfg, cexEPS, tileClasses, npMax, npArgmax,
    zeroBox, List.range_succ, List.range_zero, Real.log_one]

theorem cexRawB_list : rawTargetsOf cexCfg wGrid cexRecB =
    [⟨1, ⟨0, 0, 0, 0⟩⟩] := by
  unfold rawTargetsOf computeTargets computeRow
  norm_num [cexRecB, wGrid, cexCfg, cexEPS, tileClasses, npMax, npArgmax,
    zeroBox, List.range_succ, List.range_zero, Real.log_one]

theorem cexCorpus : corpusRows cexCfg wGrid cexRoidb =
    [⟨1, ⟨0, dyA, 0, 0⟩⟩, ⟨1, ⟨0, 0, 0, 0⟩⟩] := by
  unfold corpusRows cexRoidb
  simp [cexRawA_list, cexRawB_list]

theorem cexMeans : meansOf cexCfg.EPS (ncOf cexRoidb)
    (corpusRows cexCfg wGrid cexRoidb) 1 = ⟨0, dyA / cexC, 0, 0⟩ := by
  show meansOf cexCfg.EPS 2 (corpusRows cexCfg wGrid cexRoidb) 1 = _
  rw [cexCorpus]
  unfold meansOf clsColG classRows colMean cexC
  norm_num [cexCfg]

theorem cexStds : stdsOf cexCfg.EPS (ncOf cexRoidb)
    (corpusRows cexCfg wGrid cexRoidb) 1 = ⟨0, Real.sqrt cexRY, 0, 0⟩ := by
  show stdsOf cexCfg.EPS 2 (corpusRows cexCfg wGrid cexRoidb) 1 = _
  rw [cexCorpus]
  unfold stdsOf clsColG classRows colRad colMean cexRY cexC
  norm_num [cexCfg, Real.sqrt_zero]

theorem dyA_pos : 0 < dyA := by
  unfold dyA
  exact_mod_cast (by norm_num [cexEPS] : (0 : ℚ) < 5 / (10 + cexEPS))

theorem dyA_lt_one : dyA < 1 := by
  unfold dyA
  exact_mod_cast (by norm_num [cexEPS] : (5 / (10 + cexEPS) : ℚ) < 1)

theorem cexC_gt_two : 2 < cexC := by
  unfold cexC
  have h : (0 : ℝ) < ((cexEPS : ℚ) : ℝ) :=
    by exact_mod_cast (by norm_num [cexEPS] : (0 : ℚ) < cexEPS)
  linarith

theorem cexRY_eq : cexRY = dyA ^ 2 * (cexC - 1) / cexC ^ 2 := by
  have hc : cexC ≠ 0 := by
    have := cexC_gt_two
    linarith
  unfold cexRY
  field_simp
  ring

theorem cexRY_pos : 0 < cexRY := by
  rw [cexRY_eq]
  have hc := cexC_gt_two
  exact div_pos (mul_pos (pow_pos dyA_pos 2) (by linarith)) (by positivity)

theorem cexRY_lt_one : cexRY < 1 := by
  have hd0 := dyA_pos
  have hd1 := dyA_lt_one
  have hc := cexC_gt_two
  unfold cexRY
  have h1 : dyA ^ 2 / cexC < 1 := by
    rw [div_lt_one (by linarith)]
    nlinarith
  nlinarith [sq_nonneg (dyA / cexC)]

theorem cexRawA_getD :
    (rawTargetsOf cexCfg wGrid (cexRoidb.getD 0 emptyRecord)).getD 0 zeroTRow =
      ⟨1, ⟨0, dyA, 0, 0⟩⟩ := by
  rw [show cexRoidb.getD 0 emptyRecord = cexRecA from rfl, cexRawA_list]
  rfl

theorem cex_u_pos : 0 < dyA - dyA / cexC := by
  have h := div_lt_self dyA_pos (by linarith [cexC_gt_two] : (1 : ℝ) < cexC)
  linarith

theorem cex_sqrt_lt_one : Real.sqrt cexRY < 1 :=
  (Real.sqrt_lt' one_pos).mpr (by simpa using cexRY_lt_one)

open Classical in
theorem cexNormRowA :
    ((normTargetsOf cexCfg wGrid cexRoidb).getD 0 []).getD 0 zeroTRow =
      ⟨1, ⟨0, dyA - dyA / cexC, 0, 0⟩⟩ := by
  rw [normTargets_getD cexCfg cexRoidb wGrid 0 0 (by norm_num [cexRoidb])
    (by rw [show cexRoidb.getD 0 emptyRecord = cexRecA from rfl, cexRawA_list]
        norm_num)]
  rw [cexRawA_getD]
  unfold normRow
  dsimp only
  rw [if_pos (by decide : (1 : ℕ) ≤ 1 ∧ 1 < ncOf cexRoidb)]
  rw [cexMeans, cexStds]
  rw [if_neg (not_not_intro (rfl : ((⟨0, Real.sqrt cexRY, 0, 0⟩ : D4)).x = 0))]
  simp [D4.sub_def]

/-- C4 counterexample: at the two-image corpus `cexRoidb` under the
deployed configuration (`EPS = 1e-14`, threshold `0.5`), class 1's std
4-vector is nonzero (its dy component is positive), yet the normalization
sweep does not rewrite the class-1 row of the first image to
`(raw − mean)/std`: the guard tests only `stds[1][0]`, which is zero here,
so division is skipped on all four columns. -/
theorem c4_counterexample_vector_std :
    stdsOf cexCfg.EPS (ncOf cexRoidb) (corpusRows cexCfg wGrid cexRoidb) 1 ≠
      0 ∧
    ((rawTargetsOf cexCfg wGrid (cexRoidb.getD 0 emptyRecord)).getD 0
      zeroTRow).cls = 1 ∧
    ((normTargetsOf cexCfg wGrid cexRoidb).getD 0 []).getD 0 zeroTRow ≠
      ⟨((rawTargetsOf cexCfg wGrid (cexRoidb.getD 0 emptyRecord)).getD 0
          zeroTRow).cls,
        (((rawTargetsOf cexCfg wGrid (cexRoidb.getD 0 emptyRecord)).getD 0
            zeroTRow).d -
          meansOf cexCfg.EPS (ncOf cexRoidb) (corpusRows cexCfg wGrid cexRoidb)
            ((rawTargetsOf cexCfg wGrid (cexRoidb.getD 0 emptyRecord)).getD 0
              zeroTRow).cls) /
          stdsOf cexCfg.EPS (ncOf cexRoidb) (corpusRows cexCfg wGrid cexRoidb)
            ((rawTargetsOf cexCfg wGrid (cexRoidb.getD 0 emptyRecord)).getD 0
              zeroTRow).cls⟩ := by
  have hsr_pos : 0 < Real.sqrt cexRY := Real.sqrt_pos.mpr cexRY_pos
  refine ⟨?_, ?_, ?_⟩
  · rw [cexStds]
    intro h
    have hy := congrArg D4.y h
    exact absurd hy (ne_of_gt hsr_pos)
  · rw [cexRawA_getD]
  · rw [cexRawA_getD, cexNormRowA]
    dsimp only
    rw [cexMeans, cexStds]
    intro heq
    have hy := congrArg (fun t : TRow => t.d.y) heq
    simp only [D4.sub_def, D4.div_def] at hy
    have hu := cex_u_pos
    have hlt : dyA - dyA / cexC <
        (dyA - dyA / cexC) / Real.sqrt cexRY := by
      rw [lt_div_iff₀ hsr_pos]
      exact mul_lt_of_lt_one_right hu cex_sqrt_lt_one
    exact absurd hy (ne_of_lt hlt)

/-- C8 counterexample: at the two-image corpus `cexRoidb` under the
deployed configuration, class 1 has two contributing examples and a
nonzero std 4-vector, but `normalized * std + mean` does not recover the
raw deltas: the code never divided (its guard saw `stds[1][0] = 0`), so
multiplying back by the nonzero dy std shrinks the dy value. -/
theorem c8_counterexample_roundtrip_fails :
    1 ≤ clsCount (ncOf cexRoidb) (corpusRows cexCfg wGrid cexRoidb) 1 ∧
    stdsOf cexCfg.EPS (ncOf cexRoidb) (corpusRows cexCfg wGrid cexRoidb) 1 ≠
      0 ∧
    (((normTargetsOf cexCfg wGrid cexRoidb).getD 0 []).getD 0 zeroTRow).d *
        stdsOf cexCfg.EPS (ncOf cexRoidb) (corpusRows cexCfg wGrid cexRoidb)
          1 +
        meansOf cexCfg.EPS (ncOf cexRoidb) (corpusRows cexCfg wGrid cexRoidb)
          1 ≠
      ((rawTargetsOf cexCfg wGrid (cexRoidb.getD 0 emptyRecord)).getD 0
        zeroTRow).d := by
  have hsr_pos : 0 < Real.sqrt cexRY := Real.sqrt_pos.mpr cexRY_pos
  refine ⟨?_, ?_, ?_⟩
  · show 1 ≤ clsCount 2 (corpusRows cexCfg wGrid cexRoidb) 1
    rw [cexCorpus]
    norm_num [clsCount, classRows]
  · rw [cexStds]
    intro h
    have hy := congrArg D4.y h
    exact absurd hy (ne_of_gt hsr_pos)
  · rw [cexRawA_getD, cexNormRowA, cexMeans, cexStds]
    intro heq
    have hy := congrArg D4.y heq
    simp only [D4.mul_def, D4.add_def] at hy
    have hu := cex_u_pos
    have hlt : (dyA - dyA / cexC) * Real.sqrt cexRY + dyA / cexC < dyA := by
      have h1 : (dyA - dyA / cexC) * Real.sqrt cexRY < dyA - dyA / cexC :=
        mul_lt_of_lt_one_right hu cex_sqrt_lt_one
      linarith
    exact absurd hy (ne_of_lt hlt)

end SubCNN
